import Mathlib

/-!
Verification of the NBA data-pipeline repository (bronze ingestion, silver
extraction, gold loading, backfill orchestration).  Each Python function the
claims depend on is shallowly embedded as an executable Lean definition;
machine state (file systems, database tables) is passed explicitly.
-/

namespace DataPipeline

/-! ## Keyed tables

A relational table (and likewise any keyed file store) is modelled as an
association list from primary key to row attributes.  `upsertRow` is the
semantics of one `INSERT ... ON CONFLICT (pk) DO UPDATE` row (gold.py,
`upsert`): an existing key has its value replaced in place, a new key is
appended.  `upsert` processes a staging row-set row by row; the loaders in
gold.py always `drop_duplicates` on the primary key before calling it.
-/

def keysOf {κ α : Type} (t : List (κ × α)) : List κ := t.map Prod.fst

def lookupKey {κ α : Type} [DecidableEq κ] (t : List (κ × α)) (k : κ) : Option α :=
  (t.find? (fun r => decide (r.1 = k))).map Prod.snd

def upsertRow {κ α : Type} [DecidableEq κ] (t : List (κ × α)) (k : κ) (v : α) : List (κ × α) :=
  if k ∈ keysOf t then t.map (fun r => if r.1 = k then (k, v) else r) else t ++ [(k, v)]

def upsert {κ α : Type} [DecidableEq κ] (t : List (κ × α)) (staged : List (κ × α)) :
    List (κ × α) :=
  staged.foldl (fun acc r => upsertRow acc r.1 r.2) t

def countKey {κ α : Type} [DecidableEq κ] (t : List (κ × α)) (k : κ) : Nat :=
  (t.filter (fun r => decide (r.1 = k))).length

/-- Value of the last staged row carrying key `k`, if any (the row that wins
an upsert when the staging set carries `k` several times). -/
def lastValue? {κ α : Type} [DecidableEq κ] (k : κ) : List (κ × α) → Option α
  | [] => none
  | r :: rest =>
    match lastValue? k rest with
    | some v => some v
    | none => if r.1 = k then some r.2 else none

/-- Key list of a table after upserting rows with the given keys, in order. -/
def addKeys {κ : Type} [DecidableEq κ] (ks : List κ) : List κ → List κ
  | [] => ks
  | k :: rest => addKeys (if k ∈ ks then ks else ks ++ [k]) rest

/-! ### Lemmas about the table model -/

theorem keysOf_nil {κ α : Type} : keysOf ([] : List (κ × α)) = [] := rfl

theorem keysOf_cons {κ α : Type} (r : κ × α) (t : List (κ × α)) :
    keysOf (r :: t) = r.1 :: keysOf t := rfl

theorem keysOf_append {κ α : Type} (t u : List (κ × α)) :
    keysOf (t ++ u) = keysOf t ++ keysOf u := by
  simp [keysOf]

theorem lookupKey_nil {κ α : Type} [DecidableEq κ] (k : κ) :
    lookupKey ([] : List (κ × α)) k = none := rfl

theorem lookupKey_cons {κ α : Type} [DecidableEq κ] (r : κ × α) (t : List (κ × α)) (k : κ) :
    lookupKey (r :: t) k = if r.1 = k then some r.2 else lookupKey t k := by
  by_cases h : r.1 = k <;> simp [lookupKey, List.find?, h]

theorem lastValue?_nil {κ α : Type} [DecidableEq κ] (k : κ) :
    lastValue? k ([] : List (κ × α)) = none := rfl

theorem lastValue?_cons {κ α : Type} [DecidableEq κ] (k : κ) (r : κ × α) (rest : List (κ × α)) :
    lastValue? k (r :: rest) =
      match lastValue? k rest with
      | some v => some v
      | none => if r.1 = k then some r.2 else none := rfl

theorem addKeys_nil {κ : Type} [DecidableEq κ] (ks : List κ) : addKeys ks [] = ks := rfl

theorem addKeys_cons {κ : Type} [DecidableEq κ] (ks : List κ) (k : κ) (rest : List κ) :
    addKeys ks (k :: rest) = addKeys (if k ∈ ks then ks else ks ++ [k]) rest := rfl

theorem lookupKey_eq_none {κ α : Type} [DecidableEq κ] (t : List (κ × α)) (k : κ) :
    lookupKey t k = none ↔ k ∉ keysOf t := by
  induction t with
  | nil => simp [lookupKey_nil, keysOf]
  | cons r rest ih =>
    rw [lookupKey_cons, keysOf_cons]
    by_cases h : r.1 = k
    · simp [h]
    · rw [if_neg h, ih]
      simp only [List.mem_cons, not_or]
      constructor
      · intro hn; exact ⟨fun e => h e.symm, hn⟩
      · intro hn; exact hn.2

theorem keysOf_map_update {κ α : Type} [DecidableEq κ] (t : List (κ × α)) (k : κ) (v : α) :
    keysOf (t.map (fun r => if r.1 = k then (k, v) else r)) = keysOf t := by
  induction t with
  | nil => rfl
  | cons r rest ih =>
    simp only [List.map_cons]
    by_cases h : r.1 = k
    · rw [keysOf_cons, keysOf_cons, if_pos h, ih, h]
    · rw [keysOf_cons, keysOf_cons, if_neg h, ih]

theorem keysOf_upsertRow {κ α : Type} [DecidableEq κ] (t : List (κ × α)) (k : κ) (v : α) :
    keysOf (upsertRow t k v) = if k ∈ keysOf t then keysOf t else keysOf t ++ [k] := by
  unfold upsertRow
  by_cases h : k ∈ keysOf t
  · rw [if_pos h, if_pos h, keysOf_map_update]
  · rw [if_neg h, if_neg h, keysOf_append, keysOf_cons, keysOf_nil]

theorem lookupKey_map_update_self {κ α : Type} [DecidableEq κ] (t : List (κ × α)) (k : κ)
    (v : α) : k ∈ keysOf t →
      lookupKey (t.map (fun r => if r.1 = k then (k, v) else r)) k = some v := by
  induction t with
  | nil => intro h; simp [keysOf] at h
  | cons r rest ih =>
    intro h
    rw [keysOf_cons, List.mem_cons] at h
    simp only [List.map_cons]
    by_cases hr : r.1 = k
    · rw [if_pos hr, lookupKey_cons, if_pos rfl]
    · rw [if_neg hr, lookupKey_cons, if_neg hr]
      exact ih (h.resolve_left (fun e => hr e.symm))

theorem lookupKey_append_single_self {κ α : Type} [DecidableEq κ] (t : List (κ × α)) (k : κ)
    (v : α) : k ∉ keysOf t → lookupKey (t ++ [(k, v)]) k = some v := by
  induction t with
  | nil => intro _; rw [List.nil_append, lookupKey_cons, if_pos rfl]
  | cons r rest ih =>
    intro h
    rw [keysOf_cons, List.mem_cons] at h
    push_neg at h
    rw [List.cons_append, lookupKey_cons, if_neg (fun e => h.1 e.symm)]
    exact ih h.2

theorem lookupKey_map_update_ne {κ α : Type} [DecidableEq κ] (t : List (κ × α)) (k k' : κ)
    (v : α) (h : k' ≠ k) :
      lookupKey (t.map (fun r => if r.1 = k then (k, v) else r)) k' = lookupKey t k' := by
  induction t with
  | nil => rfl
  | cons r rest ih =>
    simp only [List.map_cons]
    by_cases hr : r.1 = k
    · rw [if_pos hr, lookupKey_cons, lookupKey_cons]
      rw [if_neg (show ¬(k, v).1 = k' from fun e => h e.symm)]
      rw [if_neg (show ¬r.1 = k' from fun e => h (by rw [hr] at e; exact e.symm))]
      exact ih
    · rw [if_neg hr, lookupKey_cons, lookupKey_cons, ih]

theorem lookupKey_append_single_ne {κ α : Type} [DecidableEq κ] (t : List (κ × α)) (k k' : κ)
    (v : α) (h : k' ≠ k) : lookupKey (t ++ [(k, v)]) k' = lookupKey t k' := by
  induction t with
  | nil => rw [List.nil_append, lookupKey_cons, if_neg (fun e => h e.symm), lookupKey_nil]
  | cons r rest ih =>
    rw [List.cons_append, lookupKey_cons, lookupKey_cons, ih]

theorem lookupKey_upsertRow_self {κ α : Type} [DecidableEq κ] (t : List (κ × α)) (k : κ)
    (v : α) : lookupKey (upsertRow t k v) k = some v := by
  unfold upsertRow
  by_cases h : k ∈ keysOf t
  · rw [if_pos h]; exact lookupKey_map_update_self t k v h
  · rw [if_neg h]; exact lookupKey_append_single_self t k v h

theorem lookupKey_upsertRow_ne {κ α : Type} [DecidableEq κ] (t : List (κ × α)) (k k' : κ)
    (v : α) (h : k' ≠ k) : lookupKey (upsertRow t k v) k' = lookupKey t k' := by
  unfold upsertRow
  by_cases hm : k ∈ keysOf t
  · rw [if_pos hm]; exact lookupKey_map_update_ne t k k' v h
  · rw [if_neg hm]; exact lookupKey_append_single_ne t k k' v h

theorem nodup_keysOf_upsertRow {κ α : Type} [DecidableEq κ] (t : List (κ × α)) (k : κ) (v : α)
    (h : (keysOf t).Nodup) : (keysOf (upsertRow t k v)).Nodup := by
  rw [keysOf_upsertRow]
  by_cases hm : k ∈ keysOf t
  · rw [if_pos hm]; exact h
  · rw [if_neg hm, List.nodup_append]
    refine ⟨h, List.nodup_singleton _, ?_⟩
    intro a ha hb
    rw [List.mem_singleton] at hb
    subst hb
    exact hm ha

theorem upsert_nil {κ α : Type} [DecidableEq κ] (t : List (κ × α)) : upsert t [] = t := rfl

theorem upsert_cons {κ α : Type} [DecidableEq κ] (t : List (κ × α)) (r : κ × α)
    (s : List (κ × α)) : upsert t (r :: s) = upsert (upsertRow t r.1 r.2) s := rfl

theorem lookupKey_upsert {κ α : Type} [DecidableEq κ] (t s : List (κ × α)) (k : κ) :
    lookupKey (upsert t s) k =
      match lastValue? k s with
      | some v => some v
      | none => lookupKey t k := by
  induction s generalizing t with
  | nil => rw [upsert_nil, lastValue?_nil]
  | cons r rest ih =>
    rw [upsert_cons, ih, lastValue?_cons]
    cases hlv : lastValue? k rest with
    | some v => simp
    | none =>
      by_cases hr : r.1 = k
      · subst hr
        simp [lookupKey_upsertRow_self]
      · simp [hr, lookupKey_upsertRow_ne t r.1 k r.2 (fun e => hr e.symm)]

theorem keysOf_upsert {κ α : Type} [DecidableEq κ] (t s : List (κ × α)) :
    keysOf (upsert t s) = addKeys (keysOf t) (keysOf s) := by
  induction s generalizing t with
  | nil => rfl
  | cons r rest ih =>
    rw [upsert_cons, ih, keysOf_cons, addKeys_cons, keysOf_upsertRow]

theorem mem_addKeys {κ : Type} [DecidableEq κ] (ks l : List κ) (a : κ) :
    a ∈ addKeys ks l ↔ a ∈ ks ∨ a ∈ l := by
  induction l generalizing ks with
  | nil => simp [addKeys_nil]
  | cons k rest ih =>
    rw [addKeys_cons]
    by_cases h : k ∈ ks
    · rw [if_pos h, ih]
      constructor
      · rintro (h' | h')
        · exact Or.inl h'
        · exact Or.inr (List.mem_cons_of_mem _ h')
      · rintro (h' | h')
        · exact Or.inl h'
        · rcases List.mem_cons.1 h' with rfl | h''
          · exact Or.inl h
          · exact Or.inr h''
    · rw [if_neg h, ih]
      simp only [List.mem_append, List.mem_singleton, List.mem_cons]
      tauto

theorem addKeys_eq_self {κ : Type} [DecidableEq κ] (ks l : List κ) (h : ∀ a ∈ l, a ∈ ks) :
    addKeys ks l = ks := by
  induction l generalizing ks with
  | nil => rfl
  | cons k rest ih =>
    rw [addKeys_cons, if_pos (h k (by simp))]
    exact ih ks (fun a ha => h a (by simp [ha]))

theorem addKeys_idem {κ : Type} [DecidableEq κ] (ks l : List κ) :
    addKeys (addKeys ks l) l = addKeys ks l :=
  addKeys_eq_self _ _ (fun a ha => (mem_addKeys ks l a).2 (Or.inr ha))

theorem nodup_addKeys {κ : Type} [DecidableEq κ] (ks l : List κ) (h : ks.Nodup) :
    (addKeys ks l).Nodup := by
  induction l generalizing ks with
  | nil => exact h
  | cons k rest ih =>
    rw [addKeys_cons]
    by_cases hk : k ∈ ks
    · rw [if_pos hk]; exact ih ks h
    · rw [if_neg hk]
      refine ih _ ?_
      rw [List.nodup_append]
      refine ⟨h, List.nodup_singleton _, ?_⟩
      intro a ha hb
      rw [List.mem_singleton] at hb
      subst hb
      exact hk ha

theorem nodup_keysOf_upsert {κ α : Type} [DecidableEq κ] (t s : List (κ × α))
    (h : (keysOf t).Nodup) : (keysOf (upsert t s)).Nodup := by
  rw [keysOf_upsert]; exact nodup_addKeys _ _ h

theorem table_ext {κ α : Type} [DecidableEq κ] :
    ∀ (t₁ t₂ : List (κ × α)), (keysOf t₁).Nodup → keysOf t₁ = keysOf t₂ →
      (∀ k, lookupKey t₁ k = lookupKey t₂ k) → t₁ = t₂ := by
  intro t₁
  induction t₁ with
  | nil =>
    intro t₂ _ hkeys _
    cases t₂ with
    | nil => rfl
    | cons r rest => simp [keysOf] at hkeys
  | cons r₁ rest₁ ih =>
    intro t₂ hnd hkeys hlook
    cases t₂ with
    | nil => simp [keysOf] at hkeys
    | cons r₂ rest₂ =>
      obtain ⟨a₁, b₁⟩ := r₁
      obtain ⟨a₂, b₂⟩ := r₂
      rw [keysOf_cons, keysOf_cons] at hkeys
      have hk : a₁ = a₂ := (List.cons.injEq _ _ _ _ ▸ hkeys : _ ∧ _).1
      have htails : keysOf rest₁ = keysOf rest₂ := (List.cons.injEq _ _ _ _ ▸ hkeys : _ ∧ _).2
      have hv : b₁ = b₂ := by
        have := hlook a₁
        rw [lookupKey_cons, lookupKey_cons] at this
        simp only [if_pos rfl] at this
        rw [if_pos hk.symm] at this
        exact Option.some.inj this
      rw [keysOf_cons] at hnd
      obtain ⟨hnotmem, hnd'⟩ := List.nodup_cons.1 hnd
      have hnotmem₂ : a₁ ∉ keysOf rest₂ := by rw [← htails]; exact hnotmem
      have htl : ∀ k, lookupKey rest₁ k = lookupKey rest₂ k := by
        intro k
        by_cases hkk : k = a₁
        · subst hkk
          rw [(lookupKey_eq_none rest₁ k).2 hnotmem, (lookupKey_eq_none rest₂ k).2 hnotmem₂]
        · have := hlook k
          rw [lookupKey_cons, lookupKey_cons] at this
          simp only [] at this
          rw [if_neg (fun e => hkk e.symm), if_neg (fun e => hkk (hk ▸ e.symm))] at this
          exact this
      have hrest : rest₁ = rest₂ := ih rest₂ hnd' htails htl
      rw [hk, hv, hrest]

theorem upsert_self_idem {κ α : Type} [DecidableEq κ] (t s : List (κ × α))
    (h : (keysOf t).Nodup) : upsert (upsert t s) s = upsert t s := by
  apply table_ext
  · exact nodup_keysOf_upsert _ _ (nodup_keysOf_upsert _ _ h)
  · rw [keysOf_upsert, keysOf_upsert, addKeys_idem]
  · intro k
    rw [lookupKey_upsert, lookupKey_upsert]
    cases hlv : lastValue? k s <;> simp

theorem lastValue?_eq_none {κ α : Type} [DecidableEq κ] (s : List (κ × α)) (k : κ) :
    k ∉ keysOf s → lastValue? k s = none := by
  induction s with
  | nil => intro _; rfl
  | cons r rest ih =>
    intro h
    rw [keysOf_cons, List.mem_cons] at h
    push_neg at h
    rw [lastValue?_cons, ih h.2]
    exact if_neg (fun e => h.1 e.symm)

theorem lastValue?_of_nodup_mem {κ α : Type} [DecidableEq κ] (s : List (κ × α)) (k : κ)
    (v : α) : (keysOf s).Nodup → (k, v) ∈ s → lastValue? k s = some v := by
  induction s with
  | nil => intro _ h; simp at h
  | cons r rest ih =>
    intro hnd hmem
    rw [keysOf_cons] at hnd
    obtain ⟨hh, hnd'⟩ := List.nodup_cons.1 hnd
    rw [lastValue?_cons]
    rcases List.mem_cons.1 hmem with he | hr
    · have hk : r.1 = k := by rw [← he]
      have hnot : k ∉ keysOf rest := hk ▸ hh
      rw [lastValue?_eq_none rest k hnot]
      simp only [if_pos hk]
      rw [← he]
    · rw [ih hnd' hr]

theorem mem_keysOf_upsert_right {κ α : Type} [DecidableEq κ] (t s : List (κ × α)) (k : κ)
    (h : k ∈ keysOf s) : k ∈ keysOf (upsert t s) := by
  rw [keysOf_upsert]; exact (mem_addKeys _ _ _).2 (Or.inr h)

theorem countKey_nil {κ α : Type} [DecidableEq κ] (k : κ) :
    countKey ([] : List (κ × α)) k = 0 := rfl

theorem countKey_cons {κ α : Type} [DecidableEq κ] (r : κ × α) (t : List (κ × α)) (k : κ) :
    countKey (r :: t) k = (if r.1 = k then 1 else 0) + countKey t k := by
  unfold countKey
  rw [List.filter_cons]
  by_cases hr : r.1 = k
  · simp [hr, Nat.add_comm]
  · simp [hr]

theorem countKey_eq_zero {κ α : Type} [DecidableEq κ] (t : List (κ × α)) (k : κ) :
    k ∉ keysOf t → countKey t k = 0 := by
  induction t with
  | nil => intro _; rfl
  | cons r rest ih =>
    intro h
    rw [keysOf_cons, List.mem_cons] at h
    push_neg at h
    rw [countKey_cons, if_neg (fun e => h.1 e.symm), ih h.2]

theorem countKey_eq_one {κ α : Type} [DecidableEq κ] (t : List (κ × α)) (k : κ) :
    (keysOf t).Nodup → k ∈ keysOf t → countKey t k = 1 := by
  induction t with
  | nil => intro _ h; simp [keysOf] at h
  | cons r rest ih =>
    intro hnd hmem
    rw [keysOf_cons] at hnd hmem
    obtain ⟨hh, hnd'⟩ := List.nodup_cons.1 hnd
    rw [countKey_cons]
    rcases List.mem_cons.1 hmem with rfl | hm
    · rw [if_pos rfl, countKey_eq_zero _ _ hh]
    · rw [if_neg (fun e => hh (by rw [e]; exact hm)), ih hnd' hm]

/-! ## Python string / number parsing helpers

All character-level work is done on `List Char` (structural recursion, so
concrete inputs evaluate inside the kernel); a `String` argument is
converted once via `.data`.

`pyFloatChars` models the fragment of Python's `float()` that the
pipeline's inputs exercise: optional surrounding whitespace, optional
sign, decimal digits with an optional fractional part.  (Exponent,
`inf`/`nan` and underscore forms never occur in clock / minutes strings.)
Failure is `none`, modelling the `ValueError` that the callers catch.
-/

/-- Python `s.split(c)` for a one-character separator. -/
def splitOnChar (c : Char) : List Char → List (List Char)
  | [] => [[]]
  | x :: xs =>
    let r := splitOnChar c xs
    if x = c then [] :: r
    else
      match r with
      | [] => [[x]]
      | h :: t => (x :: h) :: t

def isPrefixChars : List Char → List Char → Bool
  | [], _ => true
  | _ :: _, [] => false
  | a :: as, b :: bs => if a = b then isPrefixChars as bs else false

/-- Python `str.strip()` (no argument): surrounding whitespace removed. -/
def stripChars (l : List Char) : List Char :=
  ((l.dropWhile (fun c => c.isWhitespace)).reverse.dropWhile (fun c => c.isWhitespace)).reverse

/-- Python `s.rstrip(c)`: remove every trailing occurrence of `c`. -/
def rstripChar (c : Char) (l : List Char) : List Char :=
  (l.reverse.dropWhile (fun x => x = c)).reverse

/-- Python `needle in hay` on strings. -/
def containsSub (needle hay : List Char) : Bool :=
  (List.range (hay.length + 1)).any (fun i => isPrefixChars needle (hay.drop i))

def parseDigits : List Char → Option Nat
  | [] => none
  | cs =>
    if cs.all (fun c => c.isDigit) then
      some (cs.foldl (fun n c => 10 * n + (c.toNat - 48)) 0)
    else none

def pyFloatChars (l : List Char) : Option ℚ :=
  let t := stripChars l
  let sign : ℚ := if isPrefixChars ['-'] t then -1 else 1
  let body := if isPrefixChars ['-'] t || isPrefixChars ['+'] t then t.drop 1 else t
  match splitOnChar '.' body with
  | [a] => (parseDigits a).map (fun n => sign * n)
  | [a, b] =>
    if a.isEmpty && b.isEmpty then none
    else
      match (if a.isEmpty then some 0 else parseDigits a),
            (if b.isEmpty then some 0 else parseDigits b) with
      | some ip, some fp => some (sign * ((ip : ℚ) + (fp : ℚ) / (10 : ℚ) ^ b.length))
      | _, _ => none
  | _ => none

def pyFloat (s : String) : Option ℚ := pyFloatChars s.data

/-- Silver play-by-play clock parser (`nba_etl/silver/extraction.py`,
`_parse_clock`).  The argument is `none` when the pandas cell is not a
string (e.g. Python `None` / NaN), matching the `isinstance(clock_str, str)`
guard; `none` output models Python `None`.  The `try` block's `ValueError`
(tuple unpacking of a split that is not exactly two parts, or an
unparseable float) is modelled by the `none` fall-throughs. -/
def _parse_clock (clock_str : Option String) : Option ℚ :=
  match clock_str with
  | none => none
  | some s =>
    if ¬isPrefixChars ['P', 'T'] s.data then none
    else
      let t := s.data.drop 2
      match splitOnChar 'M' t with
      | [mins, rest] =>
        match pyFloatChars mins, pyFloatChars (rstripChar 'S' rest) with
        | some m, some r => some (m * 60 + r)
        | _, _ => none
      | _ => none

/-- Python 3 `round(q, 2)`: banker's rounding to two decimal places,
modelled exactly on rationals. -/
def roundHalfEven (q : ℚ) : ℤ :=
  let f := ⌊q⌋
  let r := q - f
  if r < 1 / 2 then f
  else if 1 / 2 < r then f + 1
  else if f % 2 = 0 then f else f + 1

def round2 (q : ℚ) : ℚ := (roundHalfEven (q * 100) : ℚ) / 100

/-- Gold minutes parser (`gold.py`, `_parse_minutes_str`).  `none` input
models a NaN / `None` / empty cell (the `pd.isna` guard). -/
def _parse_minutes_str (m : Option String) : Option ℚ :=
  match m with
  | none => none
  | some s =>
    if s.data.isEmpty then none
    else if containsSub [':'] s.data && !containsSub ['P', 'T'] s.data then
      match splitOnChar ':' s.data with
      | p0 :: p1 :: _ =>
        match pyFloatChars p0, pyFloatChars p1 with
        | some a, some b => some (round2 (a + b / 60))
        | _, _ => none
      | _ => none
    else if isPrefixChars ['P', 'T'] s.data then
      match splitOnChar 'M' (s.data.drop 2) with
      | [mins, rest] =>
        match pyFloatChars mins, pyFloatChars (rstripChar 'S' rest) with
        | some a, some b => some (round2 (a + b / 60))
        | _, _ => none
      | _ => none
    else (pyFloatChars s.data).map round2

/-! ## Dates and seasons -/

/-- The fields of `datetime.strptime(s, "%Y-%m-%d")` that the pipeline
uses: year, month, day.  `none` models the `ValueError` strptime raises on
a malformed date string. -/
def parseYMD (s : String) : Option (Nat × Nat × Nat) :=
  match splitOnChar '-' s.data with
  | [y, m, d] =>
    match parseDigits y, parseDigits m, parseDigits d with
    | some yn, some mn, some dn =>
      if y.length = 4 && 1 ≤ mn && mn ≤ 12 && 1 ≤ dn && dn ≤ 31 then
        some (yn, mn, dn)
      else none
    | _, _, _ => none
  | _ => none

/-- Season convention (`nba_etl/silver/extraction.py`, `get_nba_season`):
month ≥ October maps to the calendar year, earlier months to the previous
year.  `none` models the strptime exception on a malformed date. -/
def get_nba_season (game_date : String) : Option Int :=
  (parseYMD game_date).map (fun p => if 10 ≤ p.2.1 then (p.1 : Int) else (p.1 : Int) - 1)


/-! ## Bronze layer (`nba_etl/bronze/ingestion.py`)

The bronze file system holds raw artifact files (path ↦ JSON content) and
one manifest per date (`manifests/<date>.json`, modelled as a keyed map
date ↦ game-id list).  `calls` logs every HTTP fetch issued through
`_api_call`, so "no re-fetch" facts are expressible.  A fetch oracle
returns `none` when `_api_call` exhausted its retries and raised.
-/

structure BronzeState where
  files : List (String × String)
  manifests : List (String × List String)
  calls : List String
deriving DecidableEq

def download_boxscore (fetchBox : String → Option String) (st : BronzeState)
    (game_id : String) : BronzeState × Bool :=
  let path := "boxscores/" ++ game_id ++ ".json"
  if path ∈ keysOf st.files then (st, true)
  else
    match fetchBox game_id with
    | some payload =>
      ({ st with files := upsertRow st.files path payload,
                 calls := st.calls ++ ["boxscore/" ++ game_id] }, true)
    | none => ({ st with calls := st.calls ++ ["boxscore/" ++ game_id] }, false)

def download_pbp (fetchPbp : String → Option String) (st : BronzeState)
    (game_id : String) : BronzeState × Bool :=
  let path := "pbp/" ++ game_id ++ ".json"
  if path ∈ keysOf st.files then (st, true)
  else
    match fetchPbp game_id with
    | some payload =>
      ({ st with files := upsertRow st.files path payload,
                 calls := st.calls ++ ["pbp/" ++ game_id] }, true)
    | none => ({ st with calls := st.calls ++ ["pbp/" ++ game_id] }, false)

def download_shotchart (fetchShots : String → Option String) (st : BronzeState)
    (game_id : String) : BronzeState × Bool :=
  let path := "shot_chart/" ++ game_id ++ ".json"
  if path ∈ keysOf st.files then (st, true)
  else
    match fetchShots game_id with
    | some payload =>
      ({ st with files := upsertRow st.files path payload,
                 calls := st.calls ++ ["shots/" ++ game_id] }, true)
    | none => ({ st with calls := st.calls ++ ["shots/" ++ game_id] }, false)

/-- All three payloads for one game, sequentially; a failed download raises
out of the worker, so later payloads of that game are not attempted. -/
def _download_game (fb fp fs : String → Option String) (st : BronzeState)
    (game_id : String) : BronzeState × Bool :=
  let r1 := download_boxscore fb st game_id
  if !r1.2 then (r1.1, false)
  else
    let r2 := download_pbp fp r1.1 game_id
    if !r2.2 then (r2.1, false)
    else download_shotchart fs r2.1 game_id

/-- The threaded per-game download loop of `ingest_date`, modelled
sequentially in manifest order; the second component collects the ids of
games whose `_download_game` raised (the `errors` list). -/
def downloadAllGames (fb fp fs : String → Option String) (st : BronzeState)
    (game_ids : List String) : BronzeState × List String :=
  game_ids.foldl
    (fun acc gid =>
      let r := _download_game fb fp fs acc.1 gid
      (r.1, if r.2 then acc.2 else acc.2 ++ [gid]))
    (st, [])

inductive IngestResult where
  | ok : IngestResult
  | error (failed_game_ids : List String) : IngestResult
deriving DecidableEq

/-- `ingest_date` (`nba_etl/bronze/ingestion.py`).  `game_ids` is the
ScoreboardV2 discovery response for the date (a network input).  The
`.error` result is the `RuntimeError` aggregating all failed game ids. -/
def ingest_date (fb fp fs : String → Option String) (st : BronzeState)
    (game_date : String) (game_ids : List String) : BronzeState × IngestResult :=
  if game_ids.isEmpty then
    ({ st with manifests := upsertRow st.manifests game_date [] }, .ok)
  else
    let r := downloadAllGames fb fp fs st game_ids
    if r.2.isEmpty then
      ({ r.1 with manifests := upsertRow r.1.manifests game_date game_ids }, .ok)
    else (r.1, .error r.2)

/-! ## Silver layer (`nba_etl/silver/extraction.py`, `process_date`)

The silver store is keyed by partition `(dataset, season, game_date)`; the
value is the row list written to
`silver/<dataset>/season=<season>/game_date=<date>/data.parquet` (the file
is fully overwritten on every write, hence `upsertRow`).  The three pandas
converters are deterministic functions of the artifact file content; they
are abstracted as the parameter `conv` (dataset name → file content → row
list), which the claims quantify over.
-/

def SilverStore (ρ : Type) : Type := List ((String × Int × String) × List ρ)

/-- The list of partition writes `process_date` performs for one date:
for each dataset kind, the concatenation of each manifest game's converted
rows (games without an artifact file, or converting to an empty frame, are
skipped); a kind with no contributing frames is not written at all. -/
def silverWrites {ρ : Type} (conv : String → String → List ρ)
    (bronzeFiles : List (String × String)) (game_ids : List String) (season : Int)
    (game_date : String) : List ((String × Int × String) × List ρ) :=
  [("boxscores", "boxscores"), ("pbp", "pbp"), ("shot_chart", "shot_chart")].filterMap
    (fun spec =>
      let frames :=
        ((game_ids.filterMap
            (fun gid => lookupKey bronzeFiles (spec.2 ++ "/" ++ gid ++ ".json"))).map
          (conv spec.1)).filter (fun df => !df.isEmpty)
      if frames.isEmpty then none
      else some ((spec.1, season, game_date), frames.flatten))

/-- `process_date`: reads the date's manifest (`none` = the
`FileNotFoundError` of `load_manifest`), returns early on a no-game date,
otherwise overwrites the date's partitions.  The inner `none` models the
strptime exception of `get_nba_season` on a malformed date. -/
def process_date {ρ : Type} (conv : String → String → List ρ) (st : BronzeState)
    (silver : SilverStore ρ) (game_date : String) : Option (SilverStore ρ) :=
  match lookupKey st.manifests game_date with
  | none => none
  | some gids =>
    if gids.isEmpty then some silver
    else
      match get_nba_season game_date with
      | none => none
      | some season => some (upsert silver (silverWrites conv st.files gids season game_date))

/-! ## Gold layer loaders (`gold.py`) -/

/-- `drop_duplicates(subset=key)`: keep the first row for each key. -/
def dedupByGo {α κ : Type} [DecidableEq κ] (key : α → κ) (seen : List κ) :
    List α → List α
  | [] => []
  | x :: xs =>
    if key x ∈ seen then dedupByGo key seen xs
    else x :: dedupByGo key (key x :: seen) xs

def dedupBy {α κ : Type} [DecidableEq κ] (key : α → κ) (l : List α) : List α :=
  dedupByGo key [] l

/-- One silver boxscore row after the renames/column selection of
`load_fact_player_stats` (minutes still the raw string). -/
structure PlayerStatRow where
  game_id : String
  player_id : Int
  team_id : Option Int
  start_position : String
  comment : String
  minutes : Option String
  off_rating : Option ℚ
  def_rating : Option ℚ
  net_rating : Option ℚ
  usg_pct : Option ℚ
  ts_pct : Option ℚ
  efg_pct : Option ℚ
  pie : Option ℚ
deriving DecidableEq

/-- The row as stored in `fact_player_stats` (minutes parsed to decimal).
The source applies `_parse_minutes_str` before deduplication and FK
filtering; since that column is neither part of the key nor of the filter,
applying it when the staged row is built is equivalent. -/
structure GoldPlayerRow where
  game_id : String
  player_id : Int
  team_id : Option Int
  start_position : String
  comment : String
  minutes : Option ℚ
  off_rating : Option ℚ
  def_rating : Option ℚ
  net_rating : Option ℚ
  usg_pct : Option ℚ
  ts_pct : Option ℚ
  efg_pct : Option ℚ
  pie : Option ℚ
deriving DecidableEq

def toGoldPlayer (r : PlayerStatRow) : GoldPlayerRow :=
  { game_id := r.game_id, player_id := r.player_id, team_id := r.team_id,
    start_position := r.start_position, comment := r.comment,
    minutes := _parse_minutes_str r.minutes, off_rating := r.off_rating,
    def_rating := r.def_rating, net_rating := r.net_rating, usg_pct := r.usg_pct,
    ts_pct := r.ts_pct, efg_pct := r.efg_pct, pie := r.pie }

/-- `load_fact_player_stats`: dedup by `(game_id, player_id)`, keep only
rows whose game and player both resolve in the dimension tables, report
`skipped = before − after`, then upsert (early return when nothing is
left).  Returns the new table and the skipped count. -/
def load_fact_player_stats (df : List PlayerStatRow) (existing_games : List String)
    (existing_players : List Int) (table : List ((String × Int) × GoldPlayerRow)) :
    List ((String × Int) × GoldPlayerRow) × Nat :=
  let gold := dedupBy (fun r => (r.game_id, r.player_id)) df
  let kept := gold.filter
    (fun r => decide (r.game_id ∈ existing_games) && decide (r.player_id ∈ existing_players))
  let skipped := gold.length - kept.length
  if kept.isEmpty then (table, skipped)
  else (upsert table (kept.map (fun r => ((r.game_id, r.player_id), toGoldPlayer r))), skipped)

/-- One silver play-by-play row after the renames/column selection of
`load_fact_pbp`. -/
structure PbpRow where
  game_id : String
  action_number : Int
  period : Option Int
  clock_seconds : Option ℚ
  team_id : Option Int
  player_id : Option Int
  action_type : String
  sub_type : String
  description : String
  shot_distance : Option ℚ
  score_home : Option Int
  score_away : Option Int
  is_field_goal : Bool
deriving DecidableEq

/-- pandas `.replace(0, None)` on a nullable id column. -/
def replaceZero (x : Option Int) : Option Int := if x = some 0 then none else x

def pbpReplaceZeros (r : PbpRow) : PbpRow :=
  { r with team_id := replaceZero r.team_id, player_id := replaceZero r.player_id }

/-- `load_fact_pbp`: null out sentinel team/player ids, dedup by
`(game_id, action_number)`, keep only rows whose game resolves in `games`
(there is no team/player-side filter), report skipped, upsert. -/
def load_fact_pbp (df : List PbpRow) (existing_games : List String)
    (table : List ((String × Int) × PbpRow)) : List ((String × Int) × PbpRow) × Nat :=
  let gold := dedupBy (fun r => (r.game_id, r.action_number)) (df.map pbpReplaceZeros)
  let kept := gold.filter (fun r => decide (r.game_id ∈ existing_games))
  let skipped := gold.length - kept.length
  if kept.isEmpty then (table, skipped)
  else (upsert table (kept.map (fun r => ((r.game_id, r.action_number), r))), skipped)

/-! ## Backfill orchestrator (`scripts/backfill.py`) -/

/-- `is_already_done`: the date's silver boxscore partition file
`silver/boxscores/season=<season>/game_date=<date>/data.parquet`
corresponds to key `("boxscores", season, game_date)` of the silver store
(a partition key is present exactly when its `data.parquet` exists).
`none` models the strptime exception raised on a malformed date when the
manifest lists games. -/
def is_already_done (manifests : List (String × List String))
    (silverKeys : List (String × Int × String)) (game_date : String) : Option Bool :=
  match lookupKey manifests game_date with
  | none => some false
  | some gids =>
    if gids.isEmpty then some true
    else
      (get_nba_season game_date).map
        (fun season => decide (("boxscores", season, game_date) ∈ silverKeys))

inductive AttemptOutcome where
  | success : AttemptOutcome
  | failure : AttemptOutcome
  | interrupt : AttemptOutcome
deriving DecidableEq

inductive RetryResult where
  | succeeded : RetryResult
  | gaveUp : RetryResult
  | interrupted : RetryResult
deriving DecidableEq

def MAX_RETRIES : Nat := 5

def BASE_BACKOFF : ℚ := 30

/-- `wait = BASE_BACKOFF * (2 ** (attempt - 1)) + random.uniform(0, 5)`
(backfill.py line 103); the jitter draw is the second argument. -/
def backoff_wait (attempt : Nat) (jitter : ℚ) : ℚ :=
  BASE_BACKOFF * 2 ^ (attempt - 1) + jitter

/-- The attempt loop of `process_with_retry`, from attempt number
`attempt` with the given number of remaining loop iterations.  `outcome a`
is what `process_single_date` does on attempt `a` (success, an exception,
or an operator interrupt); `jitter a` is the jitter drawn before the wait
after a failed attempt `a`.  Returns the result together with the list of
waits slept, in order. -/
def retryGo (outcome : Nat → AttemptOutcome) (jitter : Nat → ℚ) (attempt : Nat) :
    Nat → RetryResult × List ℚ
  | 0 => (.gaveUp, [])
  | remaining + 1 =>
    match outcome attempt with
    | .success => (.succeeded, [])
    | .interrupt => (.interrupted, [])
    | .failure =>
      if remaining = 0 then (.gaveUp, [])
      else
        let w := backoff_wait attempt (jitter attempt)
        let p := retryGo outcome jitter (attempt + 1) remaining
        (p.1, w :: p.2)

def process_with_retry (outcome : Nat → AttemptOutcome) (jitter : Nat → ℚ) :
    RetryResult × List ℚ :=
  retryGo outcome jitter 1 MAX_RETRIES

/-! Wait computation of `_api_call` (`nba_etl/bronze/ingestion.py`,
lines 87–102): base 10 s doubling per attempt, plus jitter, with a floor of
`30 * attempt` when the failure text classified as rate limiting. -/

def API_MAX_RETRIES : Nat := 5

def API_BASE_BACKOFF : ℚ := 10

def api_backoff_wait (attempt : Nat) (jitter : ℚ) : ℚ :=
  API_BASE_BACKOFF * 2 ^ (attempt - 1) + jitter

def api_wait (is_rate_limit : Bool) (attempt : Nat) (jitter : ℚ) : ℚ :=
  if is_rate_limit then max (api_backoff_wait attempt jitter) (30 * attempt)
  else api_backoff_wait attempt jitter

inductive DateStatus where
  | skippedDate : DateStatus
  | succeededDate : DateStatus
  | failedDate : DateStatus
deriving DecidableEq

structure BackfillState where
  skipped : Nat
  processed : Nat
  failedCount : Nat
  failed_dates : List String
  consecutive_errors : Nat
  cooldowns : List String
deriving DecidableEq

def COOLDOWN_AFTER_ERRORS : Nat := 120

/-- One iteration of the `run_backfill` date loop.  `done` is the
`is_already_done` check, `retry` the outcome of `process_with_retry` for
the date.  `.error` carries the state at the moment a `KeyboardInterrupt`
propagates out of the loop.  `cooldowns` records the dates after which the
`COOLDOWN_AFTER_ERRORS` pause was taken. -/
def backfillStep (skip_existing : Bool) (done : String → Bool)
    (retry : String → RetryResult) (st : BackfillState) (d : String) :
    Except BackfillState (BackfillState × DateStatus) :=
  if skip_existing && done d then
    .ok ({ st with skipped := st.skipped + 1 }, .skippedDate)
  else
    match retry d with
    | .interrupted => .error st
    | .succeeded =>
      .ok ({ st with processed := st.processed + 1, consecutive_errors := 0 },
        .succeededDate)
    | .gaveUp =>
      let c := st.consecutive_errors + 1
      .ok ({ st with failedCount := st.failedCount + 1,
                     failed_dates := st.failed_dates ++ [d],
                     consecutive_errors := c,
                     cooldowns := if 3 ≤ c then st.cooldowns ++ [d] else st.cooldowns },
        .failedDate)

def run_backfill (skip_existing : Bool) (done : String → Bool)
    (retry : String → RetryResult) : List String → BackfillState →
    Except BackfillState BackfillState
  | [], st => .ok st
  | d :: rest, st =>
    match backfillStep skip_existing done retry st d with
    | .error st' => .error st'
    | .ok (st', _) => run_backfill skip_existing done retry rest st'

def initialBackfillState : BackfillState :=
  { skipped := 0, processed := 0, failedCount := 0, failed_dates := [],
    consecutive_errors := 0, cooldowns := [] }

/-! ### Auxiliary lemmas on dedup, upsert membership, filters -/

theorem mem_of_mem_dedupByGo {α κ : Type} [DecidableEq κ] (key : α → κ) :
    ∀ (l : List α) (seen : List κ) (x : α), x ∈ dedupByGo key seen l → x ∈ l := by
  intro l
  induction l with
  | nil => intro seen x h; simp [dedupByGo] at h
  | cons y ys ih =>
    intro seen x h
    unfold dedupByGo at h
    by_cases hk : key y ∈ seen
    · rw [if_pos hk] at h
      exact List.mem_cons_of_mem _ (ih _ _ h)
    · rw [if_neg hk] at h
      rcases List.mem_cons.1 h with rfl | h'
      · exact List.mem_cons_self _ _
      · exact List.mem_cons_of_mem _ (ih _ _ h')

theorem dedupByGo_nodup {α κ : Type} [DecidableEq κ] (key : α → κ) :
    ∀ (l : List α) (seen : List κ),
      ((dedupByGo key seen l).map key).Nodup ∧
      ∀ k ∈ (dedupByGo key seen l).map key, k ∉ seen := by
  intro l
  induction l with
  | nil =>
    intro seen
    refine ⟨by simp [dedupByGo], ?_⟩
    intro k hk
    simp [dedupByGo] at hk
  | cons y ys ih =>
    intro seen
    unfold dedupByGo
    by_cases hk : key y ∈ seen
    · rw [if_pos hk]; exact ih seen
    · rw [if_neg hk]
      obtain ⟨hnd, hns⟩ := ih (key y :: seen)
      refine ⟨?_, ?_⟩
      · rw [List.map_cons, List.nodup_cons]
        exact ⟨fun hmem => (hns _ hmem) (List.mem_cons_self _ _), hnd⟩
      · intro k hkm
        rw [List.map_cons, List.mem_cons] at hkm
        rcases hkm with rfl | hkm'
        · exact hk
        · intro hmem
          exact hns k hkm' (List.mem_cons_of_mem _ hmem)

theorem nodup_keys_dedupBy {α κ : Type} [DecidableEq κ] (key : α → κ) (l : List α) :
    ((dedupBy key l).map key).Nodup := (dedupByGo_nodup key l []).1

theorem dedupByGo_eq_self {α κ : Type} [DecidableEq κ] (key : α → κ) :
    ∀ (l : List α) (seen : List κ), (l.map key).Nodup →
      (∀ k ∈ l.map key, k ∉ seen) → dedupByGo key seen l = l := by
  intro l
  induction l with
  | nil => intro seen _ _; rfl
  | cons y ys ih =>
    intro seen hnd hdisj
    unfold dedupByGo
    rw [if_neg (hdisj (key y) (by simp))]
    rw [List.map_cons, List.nodup_cons] at hnd
    congr 1
    apply ih
    · exact hnd.2
    · intro k hkm hmem
      rcases List.mem_cons.1 hmem with rfl | hmem'
      · exact hnd.1 hkm
      · exact hdisj k (by simp [hkm]) hmem'

theorem dedupBy_eq_self {α κ : Type} [DecidableEq κ] (key : α → κ) (l : List α)
    (h : (l.map key).Nodup) : dedupBy key l = l :=
  dedupByGo_eq_self key l [] h (by intro k _ hk; simp at hk)

theorem length_sub_filter {α : Type} (l : List α) (p : α → Bool) :
    l.length - (l.filter p).length = (l.filter (fun x => !p x)).length := by
  induction l with
  | nil => rfl
  | cons x xs ih =>
    rw [List.filter_cons, List.filter_cons]
    by_cases h : p x
    · rw [if_pos (by simp [h]), if_neg (by simp [h])]
      simp only [List.length_cons, Nat.succ_sub_succ]
      exact ih
    · rw [if_neg (by simp [h]), if_pos (by simp [h])]
      simp only [List.length_cons]
      rw [Nat.succ_sub (List.length_filter_le _ _), ih]

theorem mem_upsertRow {κ α : Type} [DecidableEq κ] (t : List (κ × α)) (k : κ) (v : α)
    (e : κ × α) (h : e ∈ upsertRow t k v) : e ∈ t ∨ e = (k, v) := by
  unfold upsertRow at h
  by_cases hm : k ∈ keysOf t
  · rw [if_pos hm] at h
    rcases List.mem_map.1 h with ⟨r, hr, he⟩
    by_cases hrk : r.1 = k
    · rw [if_pos hrk] at he; exact Or.inr he.symm
    · rw [if_neg hrk] at he; exact Or.inl (he ▸ hr)
  · rw [if_neg hm] at h
    rcases List.mem_append.1 h with h' | h'
    · exact Or.inl h'
    · exact Or.inr (List.mem_singleton.1 h')

theorem mem_upsert {κ α : Type} [DecidableEq κ] :
    ∀ (s t : List (κ × α)) (e : κ × α), e ∈ upsert t s → e ∈ t ∨ e ∈ s := by
  intro s
  induction s with
  | nil => intro t e h; exact Or.inl h
  | cons r rest ih =>
    intro t e h
    rw [upsert_cons] at h
    rcases ih _ _ h with h' | h'
    · rcases mem_upsertRow _ _ _ _ h' with h'' | h''
      · exact Or.inl h''
      · refine Or.inr ?_
        rw [h'', Prod.mk.eta]
        exact List.mem_cons_self _ _
    · exact Or.inr (List.mem_cons_of_mem _ h')

theorem lookupKey_upsert_not_staged {κ α : Type} [DecidableEq κ] (t s : List (κ × α))
    (k : κ) (h : k ∉ keysOf s) : lookupKey (upsert t s) k = lookupKey t k := by
  rw [lookupKey_upsert, lastValue?_eq_none s k h]

theorem mem_keysOf_upsertRow_self {κ α : Type} [DecidableEq κ] (t : List (κ × α)) (k : κ)
    (v : α) : k ∈ keysOf (upsertRow t k v) := by
  rw [keysOf_upsertRow]
  by_cases h : k ∈ keysOf t
  · rwa [if_pos h]
  · rw [if_neg h]; simp

theorem keysOf_map_pair {α κ β : Type} (l : List α) (key : α → κ) (val : α → β) :
    keysOf (l.map (fun r => (key r, val r))) = l.map key := by
  simp [keysOf, List.map_map]

theorem nodup_keysOf_upsert_chain {κ α : Type} [DecidableEq κ] :
    ∀ (calls : List (List (κ × α))) (t : List (κ × α)), (keysOf t).Nodup →
      (keysOf (calls.foldl upsert t)).Nodup := by
  intro calls
  induction calls with
  | nil => intro t h; exact h
  | cons c rest ih =>
    intro t h
    exact ih (upsert t c) (nodup_keysOf_upsert t c h)

/-! ## Claim theorems -/

/-- Claim C6: the play-by-play clock parser is total and exception-free:
`"PT12M34.00S"` parses to 754.0 seconds, `"PT00M00.00S"` to 0.0, and
malformed input — the string `"garbage"`, or a non-string such as `None`
(the `none` argument) — yields null rather than raising (every fallible
step of the embedding maps failure to `none`, and the Lean function is
total). -/
theorem claim_C6_clock_parsing :
    _parse_clock (some "PT12M34.00S") = some 754 ∧
    _parse_clock (some "PT00M00.00S") = some 0 ∧
    _parse_clock (some "garbage") = none ∧
    _parse_clock none = none := by
  refine ⟨?_, ?_, ?_, rfl⟩ <;> with_unfolding_all rfl

/-- Claim C8: with base 30 s, the computed base wait after a failed
attempt `a` (jitter 0) is `30·2^(a−1)` — 30, 60, 120, 240, 480 s for
attempts 1..5 — and a throttled-classified failure in `_api_call` uses
`max(base·2^(attempt−1)+jitter, 30·attempt)`, enforcing the `30·attempt`
floor. -/
theorem claim_C8_backoff_growth :
    (∀ (a : Nat) (j : ℚ), backoff_wait a j = 30 * 2 ^ (a - 1) + j) ∧
    backoff_wait 1 0 = 30 ∧ backoff_wait 2 0 = 60 ∧ backoff_wait 3 0 = 120 ∧
    backoff_wait 4 0 = 240 ∧ backoff_wait 5 0 = 480 ∧
    (∀ (a : Nat) (j : ℚ),
      api_wait true a j = max (API_BASE_BACKOFF * 2 ^ (a - 1) + j) (30 * a) ∧
      30 * (a : ℚ) ≤ api_wait true a j ∧
      api_backoff_wait a j ≤ api_wait true a j ∧
      api_wait false a j = api_backoff_wait a j) := by
  refine ⟨fun a j => rfl, ?_, ?_, ?_, ?_, ?_, ?_⟩
  · norm_num [backoff_wait, BASE_BACKOFF]
  · norm_num [backoff_wait, BASE_BACKOFF]
  · norm_num [backoff_wait, BASE_BACKOFF]
  · norm_num [backoff_wait, BASE_BACKOFF]
  · norm_num [backoff_wait, BASE_BACKOFF]
  · intro a j
    refine ⟨rfl, ?_, ?_, rfl⟩
    · exact le_max_right _ _
    · exact le_max_left _ _

/-- Claim C4: upserting one row-set and then a second leaves exactly one
row for any primary key carried by the second set, holding the second
call's attribute values; and no sequence of upsert calls ever produces two
rows with the same primary key (key-list nodup is preserved by arbitrary
upsert chains). -/
theorem claim_C4_upsert_semantics {κ α : Type} [DecidableEq κ]
    (t s1 s2 : List (κ × α)) (k : κ) (v : α)
    (hnd : (keysOf t).Nodup) (hs2 : (keysOf s2).Nodup) (hmem : (k, v) ∈ s2) :
    countKey (upsert (upsert t s1) s2) k = 1 ∧
    lookupKey (upsert (upsert t s1) s2) k = some v ∧
    ∀ calls : List (List (κ × α)), (keysOf (calls.foldl upsert t)).Nodup := by
  have hk : k ∈ keysOf s2 := by
    have := List.mem_map_of_mem Prod.fst hmem
    simpa [keysOf] using this
  refine ⟨?_, ?_, ?_⟩
  · exact countKey_eq_one _ _
      (nodup_keysOf_upsert _ _ (nodup_keysOf_upsert _ _ hnd))
      (mem_keysOf_upsert_right _ _ _ hk)
  · rw [lookupKey_upsert, lastValue?_of_nodup_mem s2 k v hs2 hmem]
  · intro calls
    exact nodup_keysOf_upsert_chain calls t hnd

theorem claim_C4_upsert_semantics_witness :
    countKey (upsert (upsert ([] : List (Nat × Nat)) [(1, 10)]) [(1, 20)]) 1 = 1 ∧
    lookupKey (upsert (upsert ([] : List (Nat × Nat)) [(1, 10)]) [(1, 20)]) 1 = some 20 := by
  have h := claim_C4_upsert_semantics ([] : List (Nat × Nat)) [(1, 10)] [(1, 20)] 1 20
    (by decide) (by decide) (by decide)
  exact ⟨h.1, h.2.1⟩

theorem replaceZero_ne_zero (x : Option Int) : replaceZero x ≠ some 0 := by
  unfold replaceZero
  by_cases h : x = some 0
  · rw [if_pos h]; exact fun hc => Option.noConfusion hc
  · rw [if_neg h]; exact h

theorem dedupBy_key_inj {α κ : Type} [DecidableEq κ] (key : α → κ) (l : List α) :
    ∀ r ∈ dedupBy key l, ∀ r' ∈ dedupBy key l, key r = key r' → r = r' := by
  intro r hr r' hr' h
  exact List.inj_on_of_nodup_map (nodup_keys_dedupBy key l) hr hr' h

/-- Claim C10: in the gold play-by-play loader every sentinel team or
player id `0` is replaced by null before loading — a loaded table never
holds a literal `some 0` id — and the skipped count is exactly the number
of deduplicated rows whose game id is missing from the `games` dimension:
the drop predicate does not look at team or player ids at all, so a zero
id is never counted as a missing-FK drop on the team/player side. -/
theorem claim_C10_pbp_zero_ids (df : List PbpRow) (games : List String)
    (table : List ((String × Int) × PbpRow))
    (htab : ∀ e ∈ table, e.2.team_id ≠ some 0 ∧ e.2.player_id ≠ some 0) :
    (∀ e ∈ (load_fact_pbp df games table).1,
      e.2.team_id ≠ some 0 ∧ e.2.player_id ≠ some 0) ∧
    (load_fact_pbp df games table).2 =
      ((dedupBy (fun r => (r.game_id, r.action_number)) (df.map pbpReplaceZeros)).filter
        (fun r => !decide (r.game_id ∈ games))).length := by
  have hrep : ∀ r ∈ df.map pbpReplaceZeros, r.team_id ≠ some 0 ∧ r.player_id ≠ some 0 := by
    intro r hr
    rcases List.mem_map.1 hr with ⟨r0, _, rfl⟩
    exact ⟨replaceZero_ne_zero r0.team_id, replaceZero_ne_zero r0.player_id⟩
  constructor
  · intro e he
    unfold load_fact_pbp at he
    dsimp only at he
    split at he
    · exact htab e he
    · rcases mem_upsert _ _ _ he with h' | h'
      · exact htab e h'
      · rcases List.mem_map.1 h' with ⟨r, hrkept, rfl⟩
        have hrg : r ∈ dedupBy (fun r => (r.game_id, r.action_number)) (df.map pbpReplaceZeros) :=
          List.mem_of_mem_filter hrkept
        exact hrep r (mem_of_mem_dedupByGo _ _ _ _ hrg)
  · unfold load_fact_pbp
    dsimp only
    split
    · exact length_sub_filter _ _
    · exact length_sub_filter _ _

def pbpRowA : PbpRow :=
  { game_id := "0022300001", action_number := 2, period := some 1,
    clock_seconds := some 720, team_id := some 0, player_id := some 0,
    action_type := "period", sub_type := "start", description := "",
    shot_distance := none, score_home := some 0, score_away := some 0,
    is_field_goal := false }

def pbpRowB : PbpRow :=
  { game_id := "0022399999", action_number := 4, period := some 1,
    clock_seconds := some 697, team_id := some 1610612737, player_id := some 201939,
    action_type := "2pt", sub_type := "Layup", description := "Layup (2 PTS)",
    shot_distance := some 1, score_home := some 2, score_away := some 0,
    is_field_goal := true }

theorem claim_C10_pbp_zero_ids_witness :
    (load_fact_pbp [pbpRowA, pbpRowB] ["0022300001"] []).2 =
      ((dedupBy (fun r => (r.game_id, r.action_number))
          ([pbpRowA, pbpRowB].map pbpReplaceZeros)).filter
        (fun r => !decide (r.game_id ∈ ["0022300001"]))).length :=
  (claim_C10_pbp_zero_ids [pbpRowA, pbpRowB] ["0022300001"] []
    (by intro e he; simp at he)).2

/-- Claim C5: fact loading drops every staged row whose referenced game id
(or player id, for the player-keyed fact) has no matching dimension row —
the target table's entry for that key is left untouched, so zero rows are
loaded for it; the reported skipped count equals staged minus loaded,
which is exactly the number of rows failing the FK filter; and re-loading
the same row once the dimension rows exist stores it. -/
theorem claim_C5_fk_filtering
    (df : List PlayerStatRow) (games : List String) (players : List Int)
    (table : List ((String × Int) × GoldPlayerRow))
    (dfp : List PbpRow) (gamesp : List String) (tablep : List ((String × Int) × PbpRow)) :
    (∀ r ∈ dedupBy (fun r => (r.game_id, r.player_id)) df,
      ¬(r.game_id ∈ games ∧ r.player_id ∈ players) →
        lookupKey (load_fact_player_stats df games players table).1
            (r.game_id, r.player_id) =
          lookupKey table (r.game_id, r.player_id)) ∧
    ((load_fact_player_stats df games players table).2 =
      (dedupBy (fun r => (r.game_id, r.player_id)) df).length -
        ((dedupBy (fun r => (r.game_id, r.player_id)) df).filter
          (fun r => decide (r.game_id ∈ games) && decide (r.player_id ∈ players))).length ∧
     (load_fact_player_stats df games players table).2 =
      ((dedupBy (fun r => (r.game_id, r.player_id)) df).filter
        (fun r => !(decide (r.game_id ∈ games) && decide (r.player_id ∈ players)))).length) ∧
    (∀ r ∈ df, (df.map (fun r => (r.game_id, r.player_id))).Nodup →
      r.game_id ∈ games → r.player_id ∈ players →
        lookupKey (load_fact_player_stats df games players table).1
            (r.game_id, r.player_id) =
          some (toGoldPlayer r)) ∧
    (∀ r ∈ dedupBy (fun r => (r.game_id, r.action_number)) (dfp.map pbpReplaceZeros),
      r.game_id ∉ gamesp →
        lookupKey (load_fact_pbp dfp gamesp tablep).1 (r.game_id, r.action_number) =
          lookupKey tablep (r.game_id, r.action_number)) ∧
    (load_fact_pbp dfp gamesp tablep).2 =
      ((dedupBy (fun r => (r.game_id, r.action_number)) (dfp.map pbpReplaceZeros)).filter
        (fun r => !decide (r.game_id ∈ gamesp))).length := by
  refine ⟨?_, ⟨?_, ?_⟩, ?_, ?_, ?_⟩
  · -- (a) unresolved player-stat rows leave the table untouched at their key
    intro r hr hfail
    have hnotstaged : (r.game_id, r.player_id) ∉
        keysOf ((dedupBy (fun r => (r.game_id, r.player_id)) df).filter
            (fun r => decide (r.game_id ∈ games) && decide (r.player_id ∈ players))
          |>.map (fun r => ((r.game_id, r.player_id), toGoldPlayer r))) := by
      rw [keysOf_map_pair]
      intro hmem
      rcases List.mem_map.1 hmem with ⟨r', hr', hke⟩
      have hrg : r' ∈ dedupBy (fun r => (r.game_id, r.player_id)) df :=
        List.mem_of_mem_filter hr'
      have : r' = r := dedupBy_key_inj _ df r' hrg r hr hke
      subst this
      have := List.of_mem_filter hr'
      simp only [Bool.and_eq_true, decide_eq_true_eq] at this
      exact hfail this
    unfold load_fact_player_stats
    dsimp only
    split
    · rfl
    · exact lookupKey_upsert_not_staged _ _ _ hnotstaged
  · unfold load_fact_player_stats
    dsimp only
    split
    · rfl
    · rfl
  · unfold load_fact_player_stats
    dsimp only
    split
    · exact length_sub_filter _ _
    · exact length_sub_filter _ _
  · -- (c) once dimensions resolve, the row is stored
    intro r hrdf hnd hg hp
    have hded : dedupBy (fun r => (r.game_id, r.player_id)) df = df :=
      dedupBy_eq_self _ df hnd
    have hpass : (decide (r.game_id ∈ games) && decide (r.player_id ∈ players)) = true := by
      simp [hg, hp]
    have hrkept : r ∈ df.filter
        (fun r => decide (r.game_id ∈ games) && decide (r.player_id ∈ players)) :=
      List.mem_filter.2 ⟨hrdf, hpass⟩
    unfold load_fact_player_stats
    dsimp only
    rw [hded]
    have hne : (df.filter
        (fun r => decide (r.game_id ∈ games) && decide (r.player_id ∈ players))).isEmpty
          = false := by
      cases hempty : (df.filter _).isEmpty
      · rfl
      · rw [List.isEmpty_iff] at hempty
        rw [hempty] at hrkept
        simp at hrkept
    rw [if_neg (by rw [hne]; exact fun hc => Bool.noConfusion hc)]
    have hstagednd : (keysOf ((df.filter
        (fun r => decide (r.game_id ∈ games) && decide (r.player_id ∈ players))).map
          (fun r => ((r.game_id, r.player_id), toGoldPlayer r)))).Nodup := by
      rw [keysOf_map_pair]
      exact List.Nodup.sublist ((List.filter_sublist df).map _) hnd
    rw [lookupKey_upsert, lastValue?_of_nodup_mem _ _ _ hstagednd
      (List.mem_map_of_mem _ hrkept)]
  · -- (d) unresolved pbp rows leave the table untouched at their key
    intro r hr hfail
    have hnotstaged : (r.game_id, r.action_number) ∉
        keysOf ((dedupBy (fun r => (r.game_id, r.action_number)) (dfp.map pbpReplaceZeros)).filter
            (fun r => decide (r.game_id ∈ gamesp))
          |>.map (fun r => ((r.game_id, r.action_number), r))) := by
      rw [keysOf_map_pair]
      intro hmem
      rcases List.mem_map.1 hmem with ⟨r', hr', hke⟩
      have hrg : r' ∈ dedupBy (fun r => (r.game_id, r.action_number)) (dfp.map pbpReplaceZeros) :=
        List.mem_of_mem_filter hr'
      have : r' = r := dedupBy_key_inj _ _ r' hrg r hr hke
      subst this
      have := List.of_mem_filter hr'
      simp only [decide_eq_true_eq] at this
      exact hfail this
    unfold load_fact_pbp
    dsimp only
    split
    · rfl
    · exact lookupKey_upsert_not_staged _ _ _ hnotstaged
  · unfold load_fact_pbp
    dsimp only
    split
    · exact length_sub_filter _ _
    · exact length_sub_filter _ _

def playerRowA : PlayerStatRow :=
  { game_id := "0022300001", player_id := 201939, team_id := some 1610612744,
    start_position := "G", comment := "", minutes := some "PT36M02.00S",
    off_rating := some 121, def_rating := some 110, net_rating := some 11,
    usg_pct := some (31 / 100), ts_pct := some (65 / 100), efg_pct := some (61 / 100),
    pie := some (18 / 100) }

theorem claim_C5_fk_filtering_witness :
    lookupKey (load_fact_player_stats [playerRowA] [] [] []).1
        (playerRowA.game_id, playerRowA.player_id) =
      lookupKey ([] : List ((String × Int) × GoldPlayerRow))
        (playerRowA.game_id, playerRowA.player_id) :=
  (claim_C5_fk_filtering [playerRowA] [] [] [] [] [] []).1 playerRowA
    (by
      rw [dedupBy_eq_self _ _ (by decide)]
      exact List.mem_cons_self _ _)
    (by simp)

/-! ### Bronze helper lemmas -/

theorem download_boxscore_manifests (f : String → Option String) (st : BronzeState)
    (gid : String) : (download_boxscore f st gid).1.manifests = st.manifests := by
  unfold download_boxscore
  dsimp only
  split
  · rfl
  · split <;> rfl

theorem download_pbp_manifests (f : String → Option String) (st : BronzeState)
    (gid : String) : (download_pbp f st gid).1.manifests = st.manifests := by
  unfold download_pbp
  dsimp only
  split
  · rfl
  · split <;> rfl

theorem download_shotchart_manifests (f : String → Option String) (st : BronzeState)
    (gid : String) : (download_shotchart f st gid).1.manifests = st.manifests := by
  unfold download_shotchart
  dsimp only
  split
  · rfl
  · split <;> rfl

theorem _download_game_manifests (fb fp fs : String → Option String) (st : BronzeState)
    (gid : String) : (_download_game fb fp fs st gid).1.manifests = st.manifests := by
  unfold _download_game
  dsimp only
  split
  · exact download_boxscore_manifests fb st gid
  · split
    · rw [download_pbp_manifests, download_boxscore_manifests]
    · rw [download_shotchart_manifests, download_pbp_manifests, download_boxscore_manifests]

theorem downloadAllGames_foldl_manifests (fb fp fs : String → Option String) :
    ∀ (gids : List String) (st : BronzeState) (errs : List String),
      (gids.foldl (fun acc gid =>
        let r := _download_game fb fp fs acc.1 gid
        (r.1, if r.2 then acc.2 else acc.2 ++ [gid])) (st, errs)).1.manifests =
        st.manifests := by
  intro gids
  induction gids with
  | nil => intro st errs; rfl
  | cons g rest ih =>
    intro st errs
    rw [List.foldl_cons]
    dsimp only
    rw [ih]
    exact _download_game_manifests fb fp fs st g

theorem downloadAllGames_manifests (fb fp fs : String → Option String) (st : BronzeState)
    (gids : List String) :
    (downloadAllGames fb fp fs st gids).1.manifests = st.manifests :=
  downloadAllGames_foldl_manifests fb fp fs gids st []

def emptyBronze : BronzeState := { files := [], manifests := [], calls := [] }

/-- Claim C1 counterexample: on a date with one discovered game whose
fetches all fail, `ingest_date` does raise the aggregated error listing
the failed game id, but the manifest for the date is NOT written — the
claim's "the manifest is still written containing the full discovered
game-id list" is false (the `raise` at ingestion.py:242 precedes the
manifest write at line 247). -/
theorem claim_C1_counterexample :
    (ingest_date (fun _ => none) (fun _ => none) (fun _ => none) emptyBronze
        "2024-01-15" ["0022300001"]).2 = IngestResult.error ["0022300001"] ∧
    lookupKey (ingest_date (fun _ => none) (fun _ => none) (fun _ => none) emptyBronze
        "2024-01-15" ["0022300001"]).1.manifests "2024-01-15" = none := by
  constructor <;> rfl

/-- Claim C1 (amended): when fetching any game's payloads for a date
fails, the failure is surfaced to the caller as a single aggregated error
listing all failed game ids, but the manifest for that date is NOT
written (the date's manifest store is left unchanged); the manifest with
the full discovered game-id list is written only when every game's
payloads fetch successfully, and an empty-game-id manifest is written
when no games are discovered. -/
theorem claim_C1_aggregated_error_no_manifest (fb fp fs : String → Option String)
    (st : BronzeState) (d : String) (gids : List String) :
    ((downloadAllGames fb fp fs st gids).2 ≠ [] → gids ≠ [] →
      ingest_date fb fp fs st d gids =
        ((downloadAllGames fb fp fs st gids).1,
          IngestResult.error (downloadAllGames fb fp fs st gids).2) ∧
      (ingest_date fb fp fs st d gids).1.manifests = st.manifests) ∧
    (gids ≠ [] → (downloadAllGames fb fp fs st gids).2 = [] →
      ingest_date fb fp fs st d gids =
        ({ (downloadAllGames fb fp fs st gids).1 with
            manifests := upsertRow st.manifests d gids }, IngestResult.ok)) ∧
    (gids = [] →
      ingest_date fb fp fs st d gids =
        ({ st with manifests := upsertRow st.manifests d [] }, IngestResult.ok)) := by
  refine ⟨?_, ?_, ?_⟩
  · intro herr hg
    have hgb : ¬gids.isEmpty = true := by
      rw [List.isEmpty_iff]; exact hg
    have herrb : ¬(downloadAllGames fb fp fs st gids).2.isEmpty = true := by
      rw [List.isEmpty_iff]; exact herr
    have hmain : ingest_date fb fp fs st d gids =
        ((downloadAllGames fb fp fs st gids).1,
          IngestResult.error (downloadAllGames fb fp fs st gids).2) := by
      unfold ingest_date
      rw [if_neg hgb]
      dsimp only
      rw [if_neg herrb]
    refine ⟨hmain, ?_⟩
    rw [hmain]
    exact downloadAllGames_manifests fb fp fs st gids
  · intro hg herr
    have hgb : ¬gids.isEmpty = true := by
      rw [List.isEmpty_iff]; exact hg
    have herrb : (downloadAllGames fb fp fs st gids).2.isEmpty = true := by
      rw [List.isEmpty_iff]; exact herr
    unfold ingest_date
    rw [if_neg hgb]
    dsimp only
    rw [if_pos herrb, downloadAllGames_manifests fb fp fs st gids]
  · intro hg
    subst hg
    rfl

theorem claim_C1_aggregated_error_no_manifest_witness :
    ingest_date (fun _ => none) (fun _ => none) (fun _ => none) emptyBronze
        "2024-01-16" ["0022300002"] =
      ((downloadAllGames (fun _ => none) (fun _ => none) (fun _ => none) emptyBronze
          ["0022300002"]).1,
        IngestResult.error (downloadAllGames (fun _ => none) (fun _ => none)
          (fun _ => none) emptyBronze ["0022300002"]).2) ∧
    (ingest_date (fun _ => none) (fun _ => none) (fun _ => none) emptyBronze
        "2024-01-16" ["0022300002"]).1.manifests = emptyBronze.manifests :=
  (claim_C1_aggregated_error_no_manifest (fun _ => none) (fun _ => none) (fun _ => none)
    emptyBronze "2024-01-16" ["0022300002"]).1 (by decide) (by decide)

/-- Claim C3: the idempotency check classifies a date Skipped exactly when
its manifest exists and either lists no games or the boxscore silver
partition `silver/boxscores/season=<season>/game_date=<date>/data.parquet`
exists; for a zero-game date, `ingest_date` writes an empty-game-id
manifest, a subsequent `is_already_done` returns true, and the backfill
step classifies the date Skipped, not Failed. -/
theorem claim_C3_skip_classification
    (manifests : List (String × List String)) (silverKeys : List (String × Int × String))
    (d : String) (season : Int) (hseason : get_nba_season d = some season) :
    (is_already_done manifests silverKeys d = some true ↔
      (∃ gids, lookupKey manifests d = some gids ∧
        (gids = [] ∨ ("boxscores", season, d) ∈ silverKeys))) ∧
    (∀ (fb fp fs : String → Option String) (st : BronzeState),
      is_already_done (ingest_date fb fp fs st d []).1.manifests silverKeys d = some true) ∧
    (∀ (fb fp fs : String → Option String) (st : BronzeState)
        (retry : String → RetryResult) (bst : BackfillState),
      backfillStep true
          (fun dd => decide (is_already_done (ingest_date fb fp fs st d []).1.manifests
            silverKeys dd = some true))
          retry bst d =
        .ok ({ bst with skipped := bst.skipped + 1 }, .skippedDate)) := by
  have h2 : ∀ (fb fp fs : String → Option String) (st : BronzeState),
      is_already_done (ingest_date fb fp fs st d []).1.manifests silverKeys d = some true := by
    intro fb fp fs st
    unfold ingest_date
    rw [if_pos (show ([] : List String).isEmpty = true from rfl)]
    unfold is_already_done
    dsimp only
    rw [lookupKey_upsertRow_self]
    rfl
  refine ⟨?_, h2, ?_⟩
  · unfold is_already_done
    cases hm : lookupKey manifests d with
    | none =>
      dsimp only
      constructor
      · intro h; simp at h
      · rintro ⟨g, hg, _⟩; cases hg
    | some gids =>
      dsimp only
      by_cases hg : gids.isEmpty
      · rw [if_pos hg]
        constructor
        · intro _; exact ⟨gids, rfl, Or.inl (List.isEmpty_iff.1 hg)⟩
        · intro _; rfl
      · rw [if_neg hg, hseason]
        constructor
        · intro h
          simp at h
          exact ⟨gids, rfl, Or.inr h⟩
        · rintro ⟨g, hgeq, hor⟩
          obtain rfl : gids = g := Option.some.inj hgeq
          rcases hor with hnil | hmem
          · rw [hnil] at hg; exact absurd rfl hg
          · simp [hmem]
  · intro fb fp fs st retry bst
    unfold backfillStep
    rw [if_pos (by simp [h2 fb fp fs st])]

theorem claim_C3_skip_classification_witness :
    is_already_done [("2024-01-15", ([] : List String))] [] "2024-01-15" = some true :=
  ((claim_C3_skip_classification [("2024-01-15", [])] [] "2024-01-15" 2023
    (by decide)).1).mpr ⟨[], by decide, Or.inl rfl⟩

theorem download_boxscore_skips_existing (f : String → Option String) (st : BronzeState)
    (gid : String) (h : ("boxscores/" ++ gid ++ ".json") ∈ keysOf st.files) :
    download_boxscore f st gid = (st, true) := by
  unfold download_boxscore
  dsimp only
  rw [if_pos h]

theorem download_boxscore_file_present (f : String → Option String) (st : BronzeState)
    (gid : String) (h : (download_boxscore f st gid).2 = true) :
    ("boxscores/" ++ gid ++ ".json") ∈ keysOf (download_boxscore f st gid).1.files := by
  unfold download_boxscore at h ⊢
  dsimp only at h ⊢
  by_cases hmem : ("boxscores/" ++ gid ++ ".json") ∈ keysOf st.files
  · rw [if_pos hmem]; exact hmem
  · rw [if_neg hmem] at h ⊢
    cases hf : f gid with
    | some payload =>
      dsimp only
      exact mem_keysOf_upsertRow_self st.files _ payload
    | none =>
      rw [hf] at h
      simp at h

theorem download_boxscore_files_idem (f : String → Option String) (st : BronzeState)
    (gid : String) :
    (download_boxscore f (download_boxscore f st gid).1 gid).1.files =
      (download_boxscore f st gid).1.files := by
  by_cases hmem : ("boxscores/" ++ gid ++ ".json") ∈ keysOf st.files
  · rw [download_boxscore_skips_existing f st gid hmem]
    dsimp only
    rw [download_boxscore_skips_existing f st gid hmem]
  · cases hf : f gid with
    | some payload =>
      have h1 : download_boxscore f st gid =
          ({ st with files := upsertRow st.files ("boxscores/" ++ gid ++ ".json") payload,
                     calls := st.calls ++ ["boxscore/" ++ gid] }, true) := by
        unfold download_boxscore
        dsimp only
        rw [if_neg hmem, hf]
      rw [h1]
      dsimp only
      rw [download_boxscore_skips_existing f _ gid (mem_keysOf_upsertRow_self _ _ _)]
    | none =>
      have h1 : download_boxscore f st gid =
          ({ st with calls := st.calls ++ ["boxscore/" ++ gid] }, false) := by
        unfold download_boxscore
        dsimp only
        rw [if_neg hmem, hf]
      rw [h1]
      dsimp only
      have h2 : download_boxscore f { st with calls := st.calls ++ ["boxscore/" ++ gid] } gid =
          ({ st with calls := (st.calls ++ ["boxscore/" ++ gid]) ++ ["boxscore/" ++ gid] },
            false) := by
        unfold download_boxscore
        dsimp only
        rw [if_neg hmem, hf]
      rw [h2]

theorem process_date_idem {ρ : Type} (conv : String → String → List ρ) (st : BronzeState)
    (silver silver' : SilverStore ρ) (d : String) (hnd : (keysOf silver).Nodup)
    (h : process_date conv st silver d = some silver') :
    process_date conv st silver' d = some silver' := by
  unfold process_date at h ⊢
  cases hm : lookupKey st.manifests d with
  | none =>
    rw [hm] at h
    exact absurd h (by simp)
  | some gids =>
    rw [hm] at h
    dsimp only at h ⊢
    by_cases hg : gids.isEmpty
    · rw [if_pos hg]
    · rw [if_neg hg] at h ⊢
      cases hs : get_nba_season d with
      | none =>
        rw [hs] at h
        exact absurd h (by simp)
      | some season =>
        rw [hs] at h
        dsimp only at h ⊢
        obtain rfl := Option.some.inj h
        exact congrArg some (upsert_self_idem silver _ hnd)

/-- Claim C2: re-running each stage on unchanged inputs leaves stored
state identical: a bronze artifact download whose file exists returns
before any client call and changes nothing; a repeated download leaves the
file store exactly as after the first run (and a second run after a
successful first is a strict no-op); re-running `process_date` on the same
bronze input maps the silver store to the same store again; and repeating
an `upsert` of the same staged rows leaves the gold table (and its row
count) unchanged — a no-op or value-refresh, never a duplicate. -/
theorem claim_C2_rerun_identity :
    (∀ (f : String → Option String) (st : BronzeState) (gid : String),
      ("boxscores/" ++ gid ++ ".json") ∈ keysOf st.files →
        download_boxscore f st gid = (st, true)) ∧
    (∀ (f : String → Option String) (st : BronzeState) (gid : String),
      (download_boxscore f st gid).2 = true →
        download_boxscore f (download_boxscore f st gid).1 gid =
          ((download_boxscore f st gid).1, true)) ∧
    (∀ (f : String → Option String) (st : BronzeState) (gid : String),
      (download_boxscore f (download_boxscore f st gid).1 gid).1.files =
        (download_boxscore f st gid).1.files) ∧
    (∀ (ρ : Type) (conv : String → String → List ρ) (st : BronzeState)
        (silver silver' : SilverStore ρ) (d : String), (keysOf silver).Nodup →
      process_date conv st silver d = some silver' →
        process_date conv st silver' d = some silver') ∧
    (∀ (κ α : Type) [DecidableEq κ] (t s : List (κ × α)), (keysOf t).Nodup →
      upsert (upsert t s) s = upsert t s ∧
      (upsert (upsert t s) s).length = (upsert t s).length) := by
  refine ⟨download_boxscore_skips_existing, ?_, download_boxscore_files_idem,
    fun ρ conv st silver silver' d hnd h => process_date_idem conv st silver silver' d hnd h,
    ?_⟩
  · intro f st gid h
    exact download_boxscore_skips_existing f _ gid (download_boxscore_file_present f st gid h)
  · intro κ α inst t s hnd
    exact ⟨upsert_self_idem t s hnd, by rw [upsert_self_idem t s hnd]⟩

def bronzeWithBox : BronzeState :=
  { files := [("boxscores/0022300001.json", "payload")], manifests := [], calls := [] }

def bronzeManifestOnly : BronzeState :=
  { files := [], manifests := [("2024-01-15", [])], calls := [] }

theorem claim_C2_rerun_identity_witness :
    download_boxscore (fun _ => none) bronzeWithBox "0022300001" = (bronzeWithBox, true) ∧
    process_date (fun _ _ => ([] : List Nat)) bronzeManifestOnly ([] : SilverStore Nat)
        "2024-01-15" = some ([] : SilverStore Nat) ∧
    upsert (upsert [((1 : Nat), (2 : Nat))] [(1, 3)]) [(1, 3)] =
      upsert [((1 : Nat), (2 : Nat))] [(1, 3)] :=
  ⟨claim_C2_rerun_identity.1 (fun _ => none) bronzeWithBox "0022300001" (by decide),
   claim_C2_rerun_identity.2.2.2.1 Nat (fun _ _ => []) bronzeManifestOnly [] []
     "2024-01-15" List.nodup_nil rfl,
   (claim_C2_rerun_identity.2.2.2.2 Nat Nat [(1, 2)] [(1, 3)] (by decide)).1⟩

/-! ### Retry-loop helper lemmas -/

/-- The waits slept after failed attempts `a, a+1, …, a+n−1`. -/
def waitsFor (jitter : Nat → ℚ) (a : Nat) : Nat → List ℚ
  | 0 => []
  | n + 1 => backoff_wait a (jitter a) :: waitsFor jitter (a + 1) n

theorem retryGo_success (outcome : Nat → AttemptOutcome) (jitter : Nat → ℚ) :
    ∀ (rem a k : Nat), a ≤ k → k < a + rem →
      (∀ i, a ≤ i → i < k → outcome i = .failure) → outcome k = .success →
      retryGo outcome jitter a rem = (.succeeded, waitsFor jitter a (k - a)) := by
  intro rem
  induction rem with
  | zero => intro a k hak hk _ _; omega
  | succ r ih =>
    intro a k hak hklt hfail hsucc
    unfold retryGo
    by_cases hk : k = a
    · subst hk
      rw [hsucc]
      have : k - k = 0 := by omega
      rw [this]
      rfl
    · have halt : a < k := lt_of_le_of_ne hak (Ne.symm hk)
      rw [hfail a le_rfl halt]
      have hr : r ≠ 0 := by omega
      rw [if_neg hr]
      dsimp only
      rw [ih (a + 1) k halt (by omega) (fun i hi1 hi2 => hfail i (by omega) hi2) hsucc]
      have : k - a = (k - (a + 1)) + 1 := by omega
      rw [this]
      rfl

theorem retryGo_interrupt (outcome : Nat → AttemptOutcome) (jitter : Nat → ℚ) :
    ∀ (rem a k : Nat), a ≤ k → k < a + rem →
      (∀ i, a ≤ i → i < k → outcome i = .failure) → outcome k = .interrupt →
      retryGo outcome jitter a rem = (.interrupted, waitsFor jitter a (k - a)) := by
  intro rem
  induction rem with
  | zero => intro a k hak hk _ _; omega
  | succ r ih =>
    intro a k hak hklt hfail hint
    unfold retryGo
    by_cases hk : k = a
    · subst hk
      rw [hint]
      have : k - k = 0 := by omega
      rw [this]
      rfl
    · have halt : a < k := lt_of_le_of_ne hak (Ne.symm hk)
      rw [hfail a le_rfl halt]
      have hr : r ≠ 0 := by omega
      rw [if_neg hr]
      dsimp only
      rw [ih (a + 1) k halt (by omega) (fun i hi1 hi2 => hfail i (by omega) hi2) hint]
      have : k - a = (k - (a + 1)) + 1 := by omega
      rw [this]
      rfl

theorem retryGo_all_fail (outcome : Nat → AttemptOutcome) (jitter : Nat → ℚ) :
    ∀ (rem a : Nat), 1 ≤ rem →
      (∀ i, a ≤ i → i < a + rem → outcome i = .failure) →
      retryGo outcome jitter a rem = (.gaveUp, waitsFor jitter a (rem - 1)) := by
  intro rem
  induction rem with
  | zero => intro a h; omega
  | succ r ih =>
    intro a _ hfail
    unfold retryGo
    rw [hfail a le_rfl (by omega)]
    by_cases hr : r = 0
    · subst hr
      rw [if_pos rfl]
      rfl
    · rw [if_neg hr]
      dsimp only
      rw [ih (a + 1) (by omega) (fun i hi1 hi2 => hfail i (by omega) (by omega))]
      have : Nat.succ r - 1 = (r - 1) + 1 := by omega
      rw [this]
      rfl

theorem backfillStep_gaveUp_eq (skip_existing : Bool) (done : String → Bool)
    (retry : String → RetryResult) (st : BackfillState) (d : String)
    (h1 : (skip_existing && done d) = false) (h2 : retry d = .gaveUp) :
    backfillStep skip_existing done retry st d =
      .ok ({ st with failedCount := st.failedCount + 1,
                     failed_dates := st.failed_dates ++ [d],
                     consecutive_errors := st.consecutive_errors + 1,
                     cooldowns := if 3 ≤ st.consecutive_errors + 1 then st.cooldowns ++ [d]
                       else st.cooldowns }, .failedDate) := by
  unfold backfillStep
  rw [h1, h2]
  rfl

theorem backfillStep_interrupted_eq (skip_existing : Bool) (done : String → Bool)
    (retry : String → RetryResult) (st : BackfillState) (d : String)
    (h1 : (skip_existing && done d) = false) (h2 : retry d = .interrupted) :
    backfillStep skip_existing done retry st d = .error st := by
  unfold backfillStep
  rw [h1, h2]
  rfl

theorem run_backfill_cons (skip_existing : Bool) (done : String → Bool)
    (retry : String → RetryResult) (d : String) (rest : List String) (st : BackfillState) :
    run_backfill skip_existing done retry (d :: rest) st =
      match backfillStep skip_existing done retry st d with
      | .error st' => .error st'
      | .ok (st', _) => run_backfill skip_existing done retry rest st' := rfl

/-- Claim C7: the per-date attempt loop retries the pipeline on any
exception, sleeping `backoff_wait a (jitter a) = base·2^(a−1)+jitter`
between attempts, up to the fixed maximum of 5 attempts; an operator
interrupt propagates immediately out of the loop without being caught or
retried; exhausting all retries yields `gaveUp`, upon which the
orchestrator marks the date Failed, appends it to the failed-date list,
and continues with the remaining dates, while an interrupt aborts the
whole backfill. -/
theorem claim_C7_retry_and_containment (outcome : Nat → AttemptOutcome) (jitter : Nat → ℚ)
    (done : String → Bool) (retry : String → RetryResult) (skip_existing : Bool) :
    (∀ k, 1 ≤ k → k ≤ MAX_RETRIES → (∀ i, 1 ≤ i → i < k → outcome i = .failure) →
      (outcome k = .success →
        process_with_retry outcome jitter = (.succeeded, waitsFor jitter 1 (k - 1))) ∧
      (outcome k = .interrupt →
        process_with_retry outcome jitter = (.interrupted, waitsFor jitter 1 (k - 1)))) ∧
    ((∀ i, 1 ≤ i → i ≤ MAX_RETRIES → outcome i = .failure) →
      process_with_retry outcome jitter = (.gaveUp, waitsFor jitter 1 (MAX_RETRIES - 1))) ∧
    (∀ (st : BackfillState) (d : String) (rest : List String),
      (skip_existing && done d) = false →
      (retry d = .gaveUp →
        run_backfill skip_existing done retry (d :: rest) st =
          run_backfill skip_existing done retry rest
            { st with failedCount := st.failedCount + 1,
                      failed_dates := st.failed_dates ++ [d],
                      consecutive_errors := st.consecutive_errors + 1,
                      cooldowns := if 3 ≤ st.consecutive_errors + 1 then st.cooldowns ++ [d]
                        else st.cooldowns }) ∧
      (retry d = .interrupted →
        run_backfill skip_existing done retry (d :: rest) st = .error st)) := by
  refine ⟨?_, ?_, ?_⟩
  · intro k hk1 hk5 hfail
    constructor
    · intro hsucc
      have := retryGo_success outcome jitter MAX_RETRIES 1 k hk1
        (by unfold MAX_RETRIES at hk5 ⊢; omega) hfail hsucc
      exact this
    · intro hint
      have := retryGo_interrupt outcome jitter MAX_RETRIES 1 k hk1
        (by unfold MAX_RETRIES at hk5 ⊢; omega) hfail hint
      exact this
  · intro hfail
    exact retryGo_all_fail outcome jitter MAX_RETRIES 1 (by unfold MAX_RETRIES; omega)
      (fun i hi1 hi2 => hfail i hi1 (by unfold MAX_RETRIES at hi2 ⊢; omega))
  · intro st d rest h1
    constructor
    · intro h2
      rw [run_backfill_cons, backfillStep_gaveUp_eq skip_existing done retry st d h1 h2]
    · intro h2
      rw [run_backfill_cons, backfillStep_interrupted_eq skip_existing done retry st d h1 h2]

theorem claim_C7_retry_and_containment_witness :
    process_with_retry (fun a => if a = 2 then .success else .failure) (fun _ => 0) =
      (.succeeded, [30]) ∧
    run_backfill false (fun _ => false) (fun _ => RetryResult.interrupted)
      ["2004-01-02"] initialBackfillState = .error initialBackfillState := by
  constructor
  · have h := (claim_C7_retry_and_containment (fun a => if a = 2 then .success else .failure)
      (fun _ => 0) (fun _ => false) (fun _ => RetryResult.gaveUp) false).1 2
      (by decide) (by decide)
      (by
        intro i h1 h2
        have hi : i = 1 := by omega
        subst hi
        rfl)
    have h2 := h.1 (by rfl)
    rw [h2]
    norm_num [waitsFor, backoff_wait, BASE_BACKOFF]
  · exact ((claim_C7_retry_and_containment (fun _ => .failure) (fun _ => 0) (fun _ => false)
      (fun _ => RetryResult.interrupted) false).2.2 initialBackfillState "2004-01-02" []
      (by rfl)).2 rfl

/-- Claim C9: the cooldown heuristic as a step relation: a cooldown is
taken at a step exactly when the date Failed and the consecutive-failure
counter is at least 3 afterwards (so never while the count since the last
success is below three); the counter resets to zero on any Succeeded
date, increments on a Failed date, and is untouched by a Skipped date;
and three consecutive Failed dates always trigger the cooldown at the
third. -/
theorem claim_C9_cooldown_heuristic (skip_existing : Bool) (done : String → Bool)
    (retry : String → RetryResult) :
    (∀ (st : BackfillState) (d : String) (st' : BackfillState) (status : DateStatus),
      backfillStep skip_existing done retry st d = .ok (st', status) →
      (st'.cooldowns ≠ st.cooldowns →
        status = .failedDate ∧ 3 ≤ st'.consecutive_errors ∧
        st'.cooldowns = st.cooldowns ++ [d]) ∧
      (status = .succeededDate → st'.consecutive_errors = 0) ∧
      (status = .failedDate → st'.consecutive_errors = st.consecutive_errors + 1) ∧
      (status = .skippedDate → st'.consecutive_errors = st.consecutive_errors)) ∧
    (∀ (st : BackfillState) (d1 d2 d3 : String) (st1 st2 st3 : BackfillState)
        (s1 s2 s3 : DateStatus),
      retry d1 = .gaveUp → retry d2 = .gaveUp → retry d3 = .gaveUp →
      (skip_existing && done d1) = false → (skip_existing && done d2) = false →
      (skip_existing && done d3) = false →
      backfillStep skip_existing done retry st d1 = .ok (st1, s1) →
      backfillStep skip_existing done retry st1 d2 = .ok (st2, s2) →
      backfillStep skip_existing done retry st2 d3 = .ok (st3, s3) →
      3 ≤ st3.consecutive_errors ∧ st3.cooldowns = st2.cooldowns ++ [d3]) := by
  constructor
  · intro st d st' status hstep
    unfold backfillStep at hstep
    by_cases hskip : (skip_existing && done d) = true
    · rw [if_pos hskip] at hstep
      obtain ⟨hst, hstat⟩ := Prod.mk.injEq _ _ _ _ ▸ Except.ok.inj hstep
      subst hst hstat
      refine ⟨fun hne => absurd rfl hne, ?_, ?_, ?_⟩
      · intro h; cases h
      · intro h; cases h
      · intro _; rfl
    · rw [if_neg hskip] at hstep
      cases hr : retry d with
      | interrupted => rw [hr] at hstep; cases hstep
      | succeeded =>
        rw [hr] at hstep
        obtain ⟨hst, hstat⟩ := Prod.mk.injEq _ _ _ _ ▸ Except.ok.inj hstep
        subst hst hstat
        refine ⟨fun hne => absurd rfl hne, fun _ => rfl, ?_, ?_⟩
        · intro h; cases h
        · intro h; cases h
      | gaveUp =>
        rw [hr] at hstep
        obtain ⟨hst, hstat⟩ := Prod.mk.injEq _ _ _ _ ▸ Except.ok.inj hstep
        subst hst hstat
        by_cases hc : 3 ≤ st.consecutive_errors + 1
        · refine ⟨fun _ => ⟨rfl, ?_, ?_⟩, ?_, fun _ => rfl, ?_⟩
          · exact hc
          · dsimp only
            rw [if_pos hc]
          · intro h; cases h
          · intro h; cases h
        · refine ⟨fun hne => ?_, ?_, fun _ => rfl, ?_⟩
          · exact absurd (by dsimp only; rw [if_neg hc]) hne
          · intro h; cases h
          · intro h; cases h
  · intro st d1 d2 d3 st1 st2 st3 s1 s2 s3 hr1 hr2 hr3 hd1 hd2 hd3 hb1 hb2 hb3
    rw [backfillStep_gaveUp_eq skip_existing done retry st d1 hd1 hr1] at hb1
    obtain ⟨he1, _⟩ := Prod.mk.injEq _ _ _ _ ▸ Except.ok.inj hb1.symm
    rw [backfillStep_gaveUp_eq skip_existing done retry st1 d2 hd2 hr2] at hb2
    obtain ⟨he2, _⟩ := Prod.mk.injEq _ _ _ _ ▸ Except.ok.inj hb2.symm
    rw [backfillStep_gaveUp_eq skip_existing done retry st2 d3 hd3 hr3] at hb3
    obtain ⟨he3, _⟩ := Prod.mk.injEq _ _ _ _ ▸ Except.ok.inj hb3.symm
    have hc1 : st1.consecutive_errors = st.consecutive_errors + 1 := by rw [he1]
    have hc2 : st2.consecutive_errors = st1.consecutive_errors + 1 := by rw [he2]
    have hc3 : st3.consecutive_errors = st2.consecutive_errors + 1 := by rw [he3]
    have hge : 3 ≤ st2.consecutive_errors + 1 := by omega
    constructor
    · omega
    · rw [he3]
      dsimp only
      rw [if_pos hge]

def bfSt1 : BackfillState :=
  { skipped := 0, processed := 0, failedCount := 1, failed_dates := ["2004-01-01"],
    consecutive_errors := 1, cooldowns := [] }

def bfSt2 : BackfillState :=
  { skipped := 0, processed := 0, failedCount := 2,
    failed_dates := ["2004-01-01", "2004-01-02"], consecutive_errors := 2, cooldowns := [] }

def bfSt3 : BackfillState :=
  { skipped := 0, processed := 0, failedCount := 3,
    failed_dates := ["2004-01-01", "2004-01-02", "2004-01-03"], consecutive_errors := 3,
    cooldowns := ["2004-01-03"] }

theorem claim_C9_cooldown_heuristic_witness :
    3 ≤ bfSt3.consecutive_errors ∧ bfSt3.cooldowns = bfSt2.cooldowns ++ ["2004-01-03"] :=
  (claim_C9_cooldown_heuristic false (fun _ => false) (fun _ => RetryResult.gaveUp)).2
    initialBackfillState "2004-01-01" "2004-01-02" "2004-01-03" bfSt1 bfSt2 bfSt3
    .failedDate .failedDate .failedDate rfl rfl rfl rfl rfl rfl rfl rfl rfl
